import Mathlib

/-!
Verification of the mccortex core against its specification.

The development shallowly embeds the parts of the code base that the
checked properties speak about:

* the packed-path byte layout (`pack_bases`, `unpack_bases`, `packed_cpy`,
  `packedpath_combine_lenorient`, ...) exercised by
  `src/tests/packed_path_tests.c`;
* the graph-walker state machine of `src/common/graph_walker.c`
  (`graph_walker_choose`, `graph_traverse_force_jump`,
  `graph_walker_add_counter_paths`, the path-pool bookkeeping);
* the argument validation of the `clean` command
  (`src/commands/ctx_clean.c`).

Machine integers are modelled as `Nat` (with explicit `% 2 ^ w` where
overflow matters), nucleotides as `Fin 4`, C strings as `List Char`, and
graph lookups (colour membership, stored path chains, out-degrees) as
explicit parameters.
-/

/-! ### Packed nucleotide paths

The implementation (`packed_path.h`) is not among the sampled sources;
only its tests are.  The byte layout is therefore modelled from the
specification: base `i` occupies bits `(2*i, 2*i+1)` of byte `i/4`,
little-endian within the byte, unused trailing bits zero. -/

/-- Modelled from the spec: read base `i` of a packed byte buffer.  Base `i`
lives in bits `(2*i, 2*i+1)` of byte `i/4`, so it is recovered by dividing
byte `i/4` by `4 ^ (i % 4)` and taking the result mod 4. -/
def pbase (packed : List Nat) (i : Nat) : Nat :=
  packed.getD (i / 4) 0 / 4 ^ (i % 4) % 4

/-- Modelled from the spec: build `n` packed bytes whose base `j` is `g j`;
byte `b` holds bases `4*b .. 4*b+3`, two bits each, little-endian. -/
def packWith (g : Nat → Nat) (n : Nat) : List Nat :=
  (List.range n).map
    (fun b => g (4 * b) + 4 * g (4 * b + 1) + 16 * g (4 * b + 2) + 64 * g (4 * b + 3))

/-- Modelled from the spec: `pack_bases` (packed_path.h, absent from src)
packs a nucleotide sequence into `ceil(len/4)` bytes, with unused trailing
bits zero. -/
def pack_bases (s : List (Fin 4)) : List Nat :=
  packWith (fun j => (s.getD j 0).val) ((s.length + 3) / 4)

theorem pbase_lt_four (packed : List Nat) (i : Nat) : pbase packed i < 4 :=
  Nat.mod_lt _ (by norm_num)

/-- Modelled from the spec: `unpack_bases` (packed_path.h, absent from src)
reads `len` bases back out of a packed buffer. -/
def unpack_bases (packed : List Nat) (len : Nat) : List (Fin 4) :=
  (List.range len).map (fun i => ⟨pbase packed i, pbase_lt_four packed i⟩)

/-- Modelled from the spec: `packed_cpy` (packed_path.h, absent from src)
copies `len - shift` bases starting at base offset `shift` of `src` into a
fresh buffer starting at base offset 0, fully re-aligned. -/
def packed_cpy (src : List Nat) (shift len : Nat) : List Nat :=
  packWith (fun j => pbase src (j + shift)) ((len - shift + 3) / 4)

/-- Modelled from the spec: writing the produced bytes at byte offset `off`
of a destination buffer, as the test writes `packed_cpy_fast(out+1, ...)`
into a pre-filled buffer. -/
def write_bytes (buf : List Nat) (off : Nat) (bytes : List Nat) : List Nat :=
  buf.take off ++ bytes ++ buf.drop (off + bytes.length)

theorem getD_packWith (g : Nat → Nat) (n b : Nat) (h : b < n) :
    (packWith g n).getD b 0
      = g (4 * b) + 4 * g (4 * b + 1) + 16 * g (4 * b + 2) + 64 * g (4 * b + 3) := by
  unfold packWith
  rw [List.getD_eq_get _ _ (by simpa using h), List.get_map, List.get_range]

theorem pbase_packWith (g : Nat → Nat) (hg : ∀ j, g j < 4) (n i : Nat)
    (h : i / 4 < n) : pbase (packWith g n) i = g i := by
  unfold pbase
  rw [getD_packWith g n (i / 4) h]
  have hmod : i % 4 = 0 ∨ i % 4 = 1 ∨ i % 4 = 2 ∨ i % 4 = 3 := by omega
  have h0 := hg (4 * (i / 4))
  have h1 := hg (4 * (i / 4) + 1)
  have h2 := hg (4 * (i / 4) + 2)
  have h3 := hg (4 * (i / 4) + 3)
  rcases hmod with hr | hr | hr | hr
  · rw [hr, pow_zero, Nat.div_one, congrArg g (show i = 4 * (i / 4) by omega)]
    omega
  · rw [hr, pow_one, congrArg g (show i = 4 * (i / 4) + 1 by omega)]
    omega
  · rw [hr, show (4:ℕ) ^ 2 = 16 by norm_num,
        congrArg g (show i = 4 * (i / 4) + 2 by omega)]
    omega
  · rw [hr, show (4:ℕ) ^ 3 = 64 by norm_num,
        congrArg g (show i = 4 * (i / 4) + 3 by omega)]
    omega

theorem pbase_pack_bases (s : List (Fin 4)) (i : Nat) (h : i < s.length) :
    pbase (pack_bases s) i = (s.getD i 0).val := by
  unfold pack_bases
  exact pbase_packWith _ (fun j => (s.getD j 0).isLt) _ i (by omega)

/-- C6: for every nucleotide sequence `s` and every `shift ≤ |s|`, unpacking
the result of `packed_cpy` applied to the packed form of `s` with that shift
yields exactly the suffix `s[shift..]` of length `|s| - shift`. -/
theorem pack_cpy_unpack_roundtrip (s : List (Fin 4)) (shift : Nat)
    (h : shift ≤ s.length) :
    unpack_bases (packed_cpy (pack_bases s) shift s.length) (s.length - shift)
      = s.drop shift := by
  apply List.ext_get
  · simp [unpack_bases]
  · intro i h1 h2
    have hi : i < s.length - shift := by simpa [unpack_bases] using h1
    have hdrop : (s.drop shift).get ⟨i, h2⟩ = s.get ⟨shift + i, by omega⟩ :=
      (List.get_drop s (by omega)).symm
    rw [hdrop]
    unfold unpack_bases
    rw [List.get_map, List.get_range]
    apply Fin.ext
    show pbase (packed_cpy (pack_bases s) shift s.length) i = _
    unfold packed_cpy
    rw [pbase_packWith _ (fun j => pbase_lt_four _ _) _ i (by omega)]
    rw [pbase_pack_bases s (i + shift) (by omega)]
    rw [show i + shift = shift + i by omega]
    rw [List.getD_eq_get s _ (show shift + i < s.length by omega)]

/-- C6 witness: the round trip at `s = [C,T,A,G,G,C,T]`, `shift = 2`. -/
theorem pack_cpy_unpack_roundtrip_witness :
    unpack_bases
        (packed_cpy (pack_bases ([1, 3, 0, 2, 2, 1, 3] : List (Fin 4))) 2 7) 5
      = [0, 2, 2, 1, 3] :=
  pack_cpy_unpack_roundtrip [1, 3, 0, 2, 2, 1, 3] 2 (by decide)

/-- C8: copying 15 bases of an all-zero source with shift 0 into offset 1 of
a 100-byte buffer pre-filled with 0xff zeroes exactly bytes 1..4; byte 0 and
bytes 5..99 keep 0xff. -/
theorem pack_cpy_frame :
    write_bytes (List.replicate 100 255) 1 (packed_cpy (List.replicate 10 0) 0 15)
      = List.replicate 1 255 ++ List.replicate 4 0 ++ List.replicate 95 255 := by
  decide

/-! ### Length/orientation word -/

/-- Modelled from the spec: `packedpath_combine_lenorient` (packed_path.h,
absent from src) is `len | (orient << 31)` on a 32-bit word. -/
def packedpath_combine_lenorient (len orient : Nat) : Nat :=
  len ||| (orient <<< 31)

/-- Modelled from the spec: the low 31 bits of the combined word
(`PP_LENMASK`). -/
def packedpath_len (w : Nat) : Nat := w % 2 ^ 31

/-- Modelled from the spec: the high bit of the combined 32-bit word. -/
def packedpath_or (w : Nat) : Nat := w >>> 31

/-- C7: for every `(len, orient)` with `len < 2^31` and `orient ∈ {0,1}`,
combining with `combine_lenorient` and splitting recovers `(len, orient)`. -/
theorem lenorient_roundtrip (len orient : Nat) (hlen : len < 2 ^ 31)
    (hor : orient = 0 ∨ orient = 1) :
    packedpath_len (packedpath_combine_lenorient len orient) = len ∧
    packedpath_or (packedpath_combine_lenorient len orient) = orient := by
  unfold packedpath_len packedpath_or packedpath_combine_lenorient
  rcases hor with rfl | rfl
  · rw [Nat.zero_shiftLeft]
    constructor
    · have : len ||| 0 = len := Nat.eq_of_testBit_eq (by simp)
      rw [this]
      exact Nat.mod_eq_of_lt hlen
    · have : len ||| 0 = len := Nat.eq_of_testBit_eq (by simp)
      rw [this, Nat.shiftRight_eq_div_pow]
      exact Nat.div_eq_of_lt hlen
  · rw [Nat.shiftLeft_eq, one_mul]
    constructor
    · apply Nat.eq_of_testBit_eq
      intro i
      rw [Nat.testBit_mod_two_pow, Nat.testBit_lor]
      by_cases hi : i < 31
      · rw [Nat.testBit_two_pow_of_ne (by omega)]
        simp [hi]
      · have hfl : Nat.testBit len i = false :=
          Nat.testBit_eq_false_of_lt
            (lt_of_lt_of_le hlen (Nat.pow_le_pow_right (by norm_num) (by omega)))
        simp [hi, hfl]
    · apply Nat.eq_of_testBit_eq
      intro i
      rw [Nat.testBit_shiftRight, Nat.testBit_lor]
      cases i with
      | zero =>
        have hfl : Nat.testBit len 31 = false := Nat.testBit_eq_false_of_lt hlen
        rw [Nat.add_zero, hfl, Nat.testBit_two_pow_self]
        decide
      | succ k =>
        have hfl : Nat.testBit len (31 + (k + 1)) = false :=
          Nat.testBit_eq_false_of_lt
            (lt_of_lt_of_le hlen (Nat.pow_le_pow_right (by norm_num) (by omega)))
        have hp : Nat.testBit (2 ^ 31) (31 + (k + 1)) = false :=
          Nat.testBit_two_pow_of_ne (by omega)
        have ho : Nat.testBit 1 (k + 1) = false :=
          Nat.testBit_eq_false_of_lt
            (show 1 < 2 ^ (k + 1) from Nat.one_lt_two_pow (by omega))
        rw [hfl, hp, ho]
        decide

/-- C7 witness: the round trip at `len = 12345`, `orient = 1`. -/
theorem lenorient_roundtrip_witness :
    packedpath_len (packedpath_combine_lenorient 12345 1) = 12345 ∧
    packedpath_or (packedpath_combine_lenorient 12345 1) = 1 :=
  lenorient_roundtrip 12345 1 (by norm_num) (Or.inr rfl)

/-! ### Graph walker (src/common/graph_walker.c)

The walker state is embedded with the graph-derived inputs passed as
explicit parameters: colour membership of a node is a `Nat → Bool`
predicate, a node's stored path chain is a `List StoredPath` in the order
the C `while(index != PATH_NULL)` loop visits it, and a predecessor's
out-degree is a `Nat`.  The pointer pool of `FollowPath` records is
modelled by explicit list partitions plus a count of unused records. -/

/-- A `FollowPath` record: recorded bases, current position, length. -/
structure FollowPath where
  bases : List (Fin 4)
  pos : Nat
  len : Nat
deriving DecidableEq

/-- The nucleotide a path advocates now: `path->bases[path->pos]`. -/
def FollowPath.cur (p : FollowPath) : Fin 4 := p.bases.getD p.pos 0

/-- A path entry stored in the `PathStore` at some node: its colour
bitmap (as a predicate), orientation at the anchor, and bases. -/
structure StoredPath where
  cols : Nat → Bool
  orient : Bool
  bases : List (Fin 4)

/-- The result of `graph_walker_choose`: an index into `next_nodes`,
"no choice" (-1), or a fatal `die(...)`. -/
inductive ChooseResult where
  | choice : Nat → ChooseResult
  | noChoice : ChooseResult
  | die : ChooseResult
deriving DecidableEq

/-- The mutable `GraphWalker` state that the sampled functions touch.
`currPaths` holds the `num_curr + num_new` entries of the C `curr_paths`
array (the first `numCurr` are current, the rest are new); `numUnused`
counts the records in the unused pool. -/
structure GW where
  colour : Nat
  node : Nat
  orient : Bool
  currPaths : List FollowPath
  numCurr : Nat
  counterPaths : List FollowPath
  numUnused : Nat
  maxNumPaths : Nat
  maxPathLen : Nat
deriving DecidableEq

/-- Modelled from the spec: `ROUNDUP2POW` (util.h, absent from src) rounds
up to the next power of two; it only feeds `max_path_len`. -/
def ROUNDUP2POW (n : Nat) : Nat := 2 ^ Nat.clog 2 n

/-- `resize_paths`: double the pool when no unused record is left, grow the
per-record base capacity when `new_len` exceeds it, and put the freshly
allocated records into the unused pool. -/
def resize_paths (gw : GW) (new_len : Nat) : GW :=
  let m' := if gw.numUnused = 0 then gw.maxNumPaths * 2 else gw.maxNumPaths
  let l' := if gw.maxPathLen < new_len then ROUNDUP2POW new_len else gw.maxPathLen
  { gw with maxNumPaths := m', maxPathLen := l',
            numUnused := gw.numUnused + (m' - gw.maxNumPaths) }

/-- The body of the `pickup_paths` loop for one matching chain entry:
resize if the entry is too long or the pool is empty, take a record from
the unused pool, fetch the bases into it with `pos = 0`, and append it to
`counter_paths` or to the end of the `curr_paths` array. -/
def pickOne (gw : GW) (e : StoredPath) (counter : Bool) : GW :=
  let g1 := if gw.maxPathLen < e.bases.length ∨ gw.numUnused = 0
            then resize_paths gw e.bases.length else gw
  if counter then
    { g1 with counterPaths := g1.counterPaths ++ [⟨e.bases, 0, e.bases.length⟩],
              numUnused := g1.numUnused - 1 }
  else
    { g1 with currPaths := g1.currPaths ++ [⟨e.bases, 0, e.bases.length⟩],
              numCurr := g1.numCurr + 1,
              numUnused := g1.numUnused - 1 }

/-- `pickup_paths`: walk a node's chain; each entry holding the walker's
colour and matching `orient` is picked up via `pickOne`.  Returns the new
state and the number picked up. -/
def pickup_paths (gw : GW) (chain : List StoredPath) (orient : Bool)
    (counter : Bool) : GW × Nat :=
  match chain with
  | [] => (gw, 0)
  | e :: es =>
    if e.cols gw.colour && (e.orient == orient) then
      let r := pickup_paths (pickOne gw e counter) es orient counter
      (r.1, r.2 + 1)
    else pickup_paths gw es orient counter

/-- The list of records `pickup_paths` creates from a chain: the entries
holding the colour with matching orientation, fetched with `pos = 0`. -/
def pickedList (colour : Nat) (orient : Bool) (chain : List StoredPath) :
    List FollowPath :=
  (chain.filter (fun e => e.cols colour && (e.orient == orient))).map
    (fun e => ⟨e.bases, 0, e.bases.length⟩)

/-- `graph_walker_alloc`: two records, both unused, capacity two bases. -/
def graph_walker_alloc : GW :=
  { colour := 0, node := 0, orient := false, currPaths := [], numCurr := 0,
    counterPaths := [], numUnused := 2, maxNumPaths := 2, maxPathLen := 2 }

/-- `graph_walker_init`: anchor the walker, reset the partitions (the C
code asserts they are empty and sets `num_unused = max_num_paths`), pick
up the anchor's paths and leave them in the new region. -/
def graph_walker_init (gw : GW) (colour node : Nat) (orient : Bool)
    (chain : List StoredPath) : GW :=
  let gw0 : GW :=
    { gw with colour := colour, node := node, orient := orient,
              currPaths := [], numCurr := 0, counterPaths := [],
              numUnused := gw.maxNumPaths }
  let r := pickup_paths gw0 chain orient false
  { r.1 with numCurr := r.1.numCurr - r.2 }

/-- `graph_walker_finish`: return every current, new and counter record to
the unused pool. -/
def graph_walker_finish (gw : GW) : GW :=
  { gw with currPaths := [], numCurr := 0, counterPaths := [],
            numUnused := gw.numUnused + gw.currPaths.length + gw.counterPaths.length }

/-- The colour restriction at the head of `graph_walker_choose`: keep the
next nodes present in the walker's colour, remembering original indices. -/
def restrictCol (hasCol : Nat → Bool) (next : List (Nat × Fin 4)) :
    List (Nat × Nat × Fin 4) :=
  next.enum.filter (fun t => hasCol t.2.1)

/-- The greatest-age agreement loop of `graph_walker_choose`: scan the
remaining current paths; stop at the first strictly younger one; report
`false` (-1) when a path of the same age proposes a different
nucleotide. -/
def agreeLoop (age : Nat) (nuc : Fin 4) : List FollowPath → Bool
  | [] => true
  | p :: ps =>
    if p.pos < age then true
    else if p.cur ≠ nuc then false
    else agreeLoop age nuc ps

/-- The counting loops of `graph_walker_choose`: mark the advocated
nucleotides (`c[path->bases[path->pos]] = 1`), stopping as soon as the
count of marks reaches `target`. -/
def countNucs (target : Nat) (acc : Finset (Fin 4)) : List FollowPath → Finset (Fin 4)
  | [] => acc
  | p :: ps => if acc.card < target then countNucs target (insert p.cur acc) ps else acc

/-- The final loop of `graph_walker_choose`: return the original index of
the candidate whose nucleotide is the greatest-age one;
`die("Something went wrong")` when none matches. -/
def findNuc (nuc : Fin 4) : List (Nat × Nat × Fin 4) → ChooseResult
  | [] => .die
  | e :: es => if e.2.2 = nuc then .choice e.1 else findNuc nuc es

/-- The `USE_COUNTER_PATHS` block of `graph_walker_choose` followed by the
final selection: fail with "no choice" if fewer marks than candidates,
`die("Counter path corruption")` if more, else pick the greatest-age
nucleotide among the candidates. -/
def countCheck (m : Nat) (curr counter : List FollowPath) (gNuc : Fin 4)
    (cands : List (Nat × Nat × Fin 4)) : ChooseResult :=
  if (countNucs m (countNucs m ∅ curr) counter).card < m then .noChoice
  else if m < (countNucs m (countNucs m ∅ curr) counter).card then .die
  else findNuc gNuc cands

/-- `graph_walker_choose`: colour lookups of the candidate nodes are the
`hasCol` predicate; `curr`/`counter` are the walker's current and counter
partitions; `next` the `(next_nodes[i], next_bases[i])` pairs. -/
def graph_walker_choose (hasCol : Nat → Bool) (curr counter : List FollowPath)
    (next : List (Nat × Fin 4)) : ChooseResult :=
  if next.length = 0 then .noChoice
  else if next.length = 1 then .choice 0
  else if (restrictCol hasCol next).length = 1 then
    .choice ((restrictCol hasCol next).headD (0, 0, 0)).1
  else if (restrictCol hasCol next).length = 0 ∨ curr.length = 0 then .noChoice
  else
    match curr with
    | [] => .noChoice
    | oldest :: rest =>
      if agreeLoop oldest.pos oldest.cur rest then
        countCheck (restrictCol hasCol next).length (oldest :: rest) counter
          oldest.cur (restrictCol hasCol next)
      else .noChoice

/-- The filter `graph_traverse_force_jump` applies after a fork: a path
survives when its current base matches the nucleotide taken and it has not
reached its last base. -/
def keepP (base : Fin 4) (p : FollowPath) : Bool :=
  (p.cur == base) && decide (p.pos + 1 < p.len)

/-- Advance a surviving path past the fork (`path->pos++`). -/
def bump (p : FollowPath) : FollowPath := { p with pos := p.pos + 1 }

/-- The `if(fork)` block of `graph_traverse_force_jump`: filter current and
new paths together, advance survivors, return the rest to the unused pool;
then the same for counter paths. -/
def fork_filter (base : Fin 4) (gw : GW) : GW :=
  let keptC := (gw.currPaths.filter (keepP base)).map bump
  let keptK := (gw.counterPaths.filter (keepP base)).map bump
  { gw with currPaths := keptC, numCurr := keptC.length, counterPaths := keptK,
            numUnused := gw.numUnused + (gw.currPaths.length - keptC.length)
                                      + (gw.counterPaths.length - keptK.length) }

/-- `graph_traverse_force_jump`: apply the fork filter when `fork`, move to
the new node (`lastNuc` is `binary_kmer_last_nuc(bkmer)`, `newOrient` the
orientation recomputed from the stored key), promote the new region into
the current one, then pick up the new node's paths as the new region. -/
def graph_traverse_force_jump (gw : GW) (node : Nat) (lastNuc : Fin 4)
    (newOrient : Bool) (fork : Bool) (chain : List StoredPath) : GW :=
  let g1 := if fork then fork_filter lastNuc gw else gw
  let g2 : GW :=
    { g1 with node := node, orient := newOrient,
              numCurr := g1.currPaths.length }
  let r := pickup_paths g2 chain newOrient false
  { r.1 with numCurr := r.1.numCurr - r.2 }

/-- One iteration of `graph_walker_add_counter_paths` for a predecessor
`pv = (chain, orient, out-degree)`: pick up the predecessor's paths into
`counter_paths`; when the predecessor's out-degree exceeds one, keep among
the just-picked paths only those with `len > 1`, advancing their `pos`,
and return the rest to the unused pool. -/
def add_counter_one (gw : GW) (pv : List StoredPath × Bool × Nat) : GW :=
  let base := gw.counterPaths.length
  let r := pickup_paths gw pv.1 pv.2.1 true
  let picked := r.1.counterPaths.drop base
  if 1 < pv.2.2 then
    let kept := (picked.filter (fun p => 1 < p.len)).map bump
    { r.1 with counterPaths := r.1.counterPaths.take base ++ kept,
               numUnused := r.1.numUnused + (picked.length - kept.length) }
  else r.1

/-- `graph_walker_add_counter_paths` over the predecessor array. -/
def graph_walker_add_counter_paths (gw : GW)
    (prevs : List (List StoredPath × Bool × Nat)) : GW :=
  prevs.foldl add_counter_one gw

/-- The pool-conservation invariant of the walker:
`num_curr + num_new + num_counter + num_unused = max_num_paths`, with
`num_new = currPaths.length - numCurr` and a non-trivial pool. -/
def GW.balanced (gw : GW) : Prop :=
  gw.numCurr ≤ gw.currPaths.length ∧ 0 < gw.maxNumPaths ∧
  gw.numCurr + (gw.currPaths.length - gw.numCurr)
    + gw.counterPaths.length + gw.numUnused = gw.maxNumPaths

instance (gw : GW) : Decidable gw.balanced := by
  unfold GW.balanced
  exact inferInstance

/-! ### Properties of `graph_walker_choose` -/

theorem restrictCol_length_le (hasCol : Nat → Bool) (next : List (Nat × Fin 4)) :
    (restrictCol hasCol next).length ≤ next.length := by
  unfold restrictCol
  calc (next.enum.filter (fun t => hasCol t.2.1)).length
      ≤ next.enum.length := List.length_filter_le _ _
    _ = next.length := List.enum_length

theorem choose_eq_countCheck (hasCol : Nat → Bool) (oldest : FollowPath)
    (rest counter : List FollowPath) (next : List (Nat × Fin 4))
    (hm : 2 ≤ (restrictCol hasCol next).length) :
    graph_walker_choose hasCol (oldest :: rest) counter next =
      if agreeLoop oldest.pos oldest.cur rest then
        countCheck (restrictCol hasCol next).length (oldest :: rest) counter
          oldest.cur (restrictCol hasCol next)
      else ChooseResult.noChoice := by
  have hle := restrictCol_length_le hasCol next
  unfold graph_walker_choose
  rw [if_neg (by omega), if_neg (by omega), if_neg (by omega),
      if_neg (by push_neg; exact ⟨by omega, by simp⟩)]

theorem countNucs_subset (t : Nat) (acc : Finset (Fin 4)) (l : List FollowPath) :
    countNucs t acc l ⊆ acc ∪ (l.map FollowPath.cur).toFinset := by
  induction l generalizing acc with
  | nil => simp [countNucs]
  | cons p ps ih =>
    unfold countNucs
    by_cases h : acc.card < t
    · rw [if_pos h]
      refine (ih (insert p.cur acc)).trans ?_
      rw [List.map_cons, List.toFinset_cons, Finset.insert_union, Finset.union_insert]
    · rw [if_neg h]
      exact Finset.subset_union_left

theorem countNucs_card (t : Nat) (acc : Finset (Fin 4)) (l : List FollowPath)
    (h : acc.card ≤ t) :
    (countNucs t acc l).card = min t (acc ∪ (l.map FollowPath.cur).toFinset).card := by
  induction l generalizing acc with
  | nil =>
    simp only [countNucs, List.map_nil, List.toFinset_nil, Finset.union_empty]
    omega
  | cons p ps ih =>
    unfold countNucs
    by_cases hlt : acc.card < t
    · rw [if_pos hlt]
      have hcard : (insert p.cur acc).card ≤ t :=
        le_trans (Finset.card_insert_le _ _) (by omega)
      rw [ih _ hcard]
      rw [List.map_cons, List.toFinset_cons, Finset.insert_union, Finset.union_insert]
    · rw [if_neg hlt]
      have hsub : acc ⊆ acc ∪ ((p :: ps).map FollowPath.cur).toFinset :=
        Finset.subset_union_left
      have := Finset.card_le_card hsub
      omega

theorem findNuc_choice (nuc : Fin 4) (l : List (Nat × Nat × Fin 4)) (i : Nat)
    (h : findNuc nuc l = ChooseResult.choice i) : ∃ nd, (i, nd, nuc) ∈ l := by
  induction l with
  | nil => exact absurd h (by simp [findNuc])
  | cons e es ih =>
    rcases e with ⟨a, b, c⟩
    unfold findNuc at h
    by_cases he : c = nuc
    · rw [if_pos he] at h
      have ha : a = i := by
        have := ChooseResult.choice.injEq a i
        simp at h
        exact h
      exact ⟨b, by rw [← ha, ← he]; exact List.mem_cons_self _ _⟩
    · rw [if_neg he] at h
      rcases ih h with ⟨nd, hnd⟩
      exact ⟨nd, List.mem_cons_of_mem _ hnd⟩

theorem agreeLoop_disagree (age : Nat) (nuc : Fin 4) (l : List FollowPath)
    (hs : List.Sorted (fun a b => b.pos ≤ a.pos) l)
    (hle : ∀ q ∈ l, q.pos ≤ age)
    (p : FollowPath) (hp : p ∈ l) (hpos : p.pos = age) (hne : p.cur ≠ nuc) :
    agreeLoop age nuc l = false := by
  induction l with
  | nil => exact absurd hp (by simp)
  | cons q qs ih =>
    unfold agreeLoop
    rcases List.mem_cons.mp hp with rfl | hp'
    · rw [if_neg (by omega), if_pos hne]
    · have hq : p.pos ≤ q.pos := List.rel_of_sorted_cons hs p hp'
      have hqage : q.pos ≤ age := hle q (by simp)
      rw [if_neg (by omega)]
      by_cases hqc : q.cur ≠ nuc
      · rw [if_pos hqc]
      · rw [if_neg hqc]
        exact ih hs.of_cons (fun x hx => hle x (List.mem_cons_of_mem _ hx)) hp'

/-- C3 counterexample: a single next node absent from the walker's colour is
still picked (`num_next == 1` short-circuits before the colour
restriction), where the claim requires "no choice" once zero candidates
remain after restriction. -/
theorem graph_walker_choose_restrict_cex :
    graph_walker_choose (fun _ => false) [] [] [(5, 2)] = ChooseResult.choice 0 ∧
    restrictCol (fun _ => false) [(5, 2)] = [] := by
  decide

/-- C3 (amended): the colour restriction is applied only when at least two
next nodes exist; a sole next node is picked without the colour check;
with two or more next nodes, a unique surviving candidate is picked, and
zero survivors, or no current paths (unless exactly one candidate
survives), give "no choice". -/
theorem graph_walker_choose_restrict (hasCol : Nat → Bool)
    (curr counter : List FollowPath) (next : List (Nat × Fin 4)) :
    (next = [] → graph_walker_choose hasCol curr counter next
        = ChooseResult.noChoice) ∧
    (next.length = 1 → graph_walker_choose hasCol curr counter next
        = ChooseResult.choice 0) ∧
    (2 ≤ next.length → (restrictCol hasCol next).length = 1 →
      graph_walker_choose hasCol curr counter next
        = ChooseResult.choice ((restrictCol hasCol next).headD (0, 0, 0)).1) ∧
    (2 ≤ next.length → (restrictCol hasCol next).length = 0 →
      graph_walker_choose hasCol curr counter next = ChooseResult.noChoice) ∧
    (2 ≤ next.length → (restrictCol hasCol next).length ≠ 1 → curr = [] →
      graph_walker_choose hasCol curr counter next = ChooseResult.noChoice) := by
  refine ⟨?_, ?_, ?_, ?_, ?_⟩
  · rintro rfl
    rfl
  · intro h1
    unfold graph_walker_choose
    rw [if_neg (by omega), if_pos h1]
  · intro h2 hr
    unfold graph_walker_choose
    rw [if_neg (by omega), if_neg (by omega), if_pos hr]
  · intro h2 hr
    unfold graph_walker_choose
    rw [if_neg (by omega), if_neg (by omega), if_neg (by omega),
        if_pos (Or.inl hr)]
  · rintro h2 hne rfl
    unfold graph_walker_choose
    rw [if_neg (by omega), if_neg (by omega), if_neg hne,
        if_pos (Or.inr (show ([] : List FollowPath).length = 0 from rfl))]

/-- C3 witness: a sole next node is picked. -/
theorem graph_walker_choose_restrict_witness :
    graph_walker_choose (fun _ => true) [] [] [(3, 2)] = ChooseResult.choice 0 :=
  (graph_walker_choose_restrict (fun _ => true) [] [] [(3, 2)]).2.1 rfl

/-- C2: at a genuine fork (at least two candidates after restriction), with
the current paths sorted by non-increasing `pos` (the walker's ordering
invariant), the head path has the largest `pos`; a second path of that
same maximal age proposing a different nucleotide forces "no choice"; and
any returned choice carries the head path's nucleotide. -/
theorem graph_walker_choose_greatest_age (hasCol : Nat → Bool)
    (oldest : FollowPath) (rest counter : List FollowPath)
    (next : List (Nat × Fin 4))
    (hsort : List.Sorted (fun a b => b.pos ≤ a.pos) (oldest :: rest))
    (hm : 2 ≤ (restrictCol hasCol next).length) :
    (∀ p ∈ oldest :: rest, p.pos ≤ oldest.pos) ∧
    (∀ p ∈ rest, p.pos = oldest.pos → p.cur ≠ oldest.cur →
      graph_walker_choose hasCol (oldest :: rest) counter next
        = ChooseResult.noChoice) ∧
    (∀ i, graph_walker_choose hasCol (oldest :: rest) counter next
        = ChooseResult.choice i →
      ∃ nd, (i, nd, oldest.cur) ∈ restrictCol hasCol next) := by
  refine ⟨?_, ?_, ?_⟩
  · intro p hp
    rcases List.mem_cons.mp hp with rfl | hp'
    · exact le_refl _
    · exact List.rel_of_sorted_cons hsort p hp'
  · intro p hp hpos hne
    rw [choose_eq_countCheck hasCol oldest rest counter next hm]
    rw [agreeLoop_disagree oldest.pos oldest.cur rest hsort.of_cons
        (fun q hq => List.rel_of_sorted_cons hsort q hq) p hp hpos hne]
    rfl
  · intro i hch
    rw [choose_eq_countCheck hasCol oldest rest counter next hm] at hch
    by_cases ha : agreeLoop oldest.pos oldest.cur rest
    · rw [if_pos ha] at hch
      unfold countCheck at hch
      split at hch
      · cases hch
      · split at hch
        · cases hch
        · exact findNuc_choice _ _ _ hch
    · rw [if_neg ha] at hch
      cases hch

/-- C2 witness: head path `pos = 1` proposing A, a younger path, fork
`{A, C}`; the chosen index carries A. -/
theorem graph_walker_choose_greatest_age_witness :
    ∃ nd, ((0 : Nat), nd, (FollowPath.cur ⟨[2, 0], 1, 2⟩))
      ∈ restrictCol (fun _ => true) [(0, 0), (1, 1)] :=
  (graph_walker_choose_greatest_age (fun _ => true) ⟨[2, 0], 1, 2⟩
      [⟨[1, 0], 0, 2⟩] [] [(0, 0), (1, 1)] (by decide) (by decide)).2.2 0 (by decide)

/-- C1 counterexample: fork `{A, C}`, one current path `[A,G]` at `pos = 0`
(the S3 shape), counter paths advocating G and T.  The advocated set `U`
has 3 > m = 2 elements and the counter paths do not cover the C extension,
yet `choose` returns the A extension instead of dying. -/
theorem graph_walker_choose_counter_check_cex :
    graph_walker_choose (fun _ => true) [⟨[0, 2], 0, 2⟩]
        [⟨[2, 2], 0, 2⟩, ⟨[3, 3], 0, 2⟩] [(0, 0), (1, 1)] = ChooseResult.choice 0 ∧
    ((([⟨[0, 2], 0, 2⟩, ⟨[2, 2], 0, 2⟩, ⟨[3, 3], 0, 2⟩] : List FollowPath)).map
        FollowPath.cur).toFinset.card = 3 ∧
    (restrictCol (fun _ => true) [(0, 0), (1, 1)]).length = 2 := by
  decide

/-- C1 (amended): at a fork with `m ≥ 2` candidates after restriction,
"no choice" whenever `U` (the distinct nucleotides advocated by
`curr ∪ counter`) has fewer than `m` elements; when `|U| ≥ m` the counter
check passes (the count saturates at `m`, so `|U| > m` is not detected)
and, provided the agreement loop passed, the result is the lookup of the
greatest-age nucleotide among the candidates — a choice if present, the
fatal error only if absent. -/
theorem graph_walker_choose_counter_check (hasCol : Nat → Bool)
    (oldest : FollowPath) (rest counter : List FollowPath)
    (next : List (Nat × Fin 4))
    (hm : 2 ≤ (restrictCol hasCol next).length) :
    ((((oldest :: rest) ++ counter).map FollowPath.cur).toFinset.card
        < (restrictCol hasCol next).length →
      graph_walker_choose hasCol (oldest :: rest) counter next
        = ChooseResult.noChoice) ∧
    (agreeLoop oldest.pos oldest.cur rest = true →
     (restrictCol hasCol next).length
        ≤ (((oldest :: rest) ++ counter).map FollowPath.cur).toFinset.card →
      graph_walker_choose hasCol (oldest :: rest) counter next
        = findNuc oldest.cur (restrictCol hasCol next)) := by
  have hsplit : (((oldest :: rest) ++ counter).map FollowPath.cur).toFinset
      = ((oldest :: rest).map FollowPath.cur).toFinset
        ∪ (counter.map FollowPath.cur).toFinset := by
    rw [List.map_append, List.toFinset_append]
  constructor
  · intro hU
    rw [choose_eq_countCheck hasCol oldest rest counter next hm]
    by_cases ha : agreeLoop oldest.pos oldest.cur rest
    · rw [if_pos ha]
      unfold countCheck
      have hsub1 := countNucs_subset (restrictCol hasCol next).length ∅ (oldest :: rest)
      have hsub2 := countNucs_subset (restrictCol hasCol next).length
        (countNucs (restrictCol hasCol next).length ∅ (oldest :: rest)) counter
      have hsubU : countNucs (restrictCol hasCol next).length
          (countNucs (restrictCol hasCol next).length ∅ (oldest :: rest)) counter
          ⊆ (((oldest :: rest) ++ counter).map FollowPath.cur).toFinset := by
        rw [hsplit]
        refine hsub2.trans (Finset.union_subset_union (hsub1.trans ?_)
          (Finset.Subset.refl _))
        simp
      have hc := Finset.card_le_card hsubU
      rw [if_pos (by omega)]
    · rw [if_neg ha]
  · intro ha hU
    rw [choose_eq_countCheck hasCol oldest rest counter next hm, if_pos ha]
    unfold countCheck
    have h1 : (countNucs (restrictCol hasCol next).length ∅ (oldest :: rest)).card
        = min (restrictCol hasCol next).length
            (((oldest :: rest).map FollowPath.cur).toFinset).card := by
      have := countNucs_card (restrictCol hasCol next).length ∅ (oldest :: rest)
        (by simp)
      simpa using this
    have hc1le : (countNucs (restrictCol hasCol next).length ∅ (oldest :: rest)).card
        ≤ (restrictCol hasCol next).length := by omega
    have h2 := countNucs_card (restrictCol hasCol next).length
      (countNucs (restrictCol hasCol next).length ∅ (oldest :: rest)) counter hc1le
    have hfinal : (countNucs (restrictCol hasCol next).length
        (countNucs (restrictCol hasCol next).length ∅ (oldest :: rest)) counter).card
        = (restrictCol hasCol next).length := by
      rcases le_or_lt (restrictCol hasCol next).length
          (((oldest :: rest).map FollowPath.cur).toFinset).card with hcase | hcase
      · have hle2 : (countNucs (restrictCol hasCol next).length ∅ (oldest :: rest))
            ⊆ countNucs (restrictCol hasCol next).length ∅ (oldest :: rest)
              ∪ (counter.map FollowPath.cur).toFinset := Finset.subset_union_left
        have := Finset.card_le_card hle2
        omega
      · have hc1sub : countNucs (restrictCol hasCol next).length ∅ (oldest :: rest)
            ⊆ ((oldest :: rest).map FollowPath.cur).toFinset := by
          have := countNucs_subset (restrictCol hasCol next).length ∅ (oldest :: rest)
          simpa using this
        have hc1eq : countNucs (restrictCol hasCol next).length ∅ (oldest :: rest)
            = ((oldest :: rest).map FollowPath.cur).toFinset :=
          Finset.eq_of_subset_of_card_le hc1sub (by omega)
        rw [h2, hc1eq, ← hsplit]
        omega
    rw [if_neg (by omega), if_neg (by omega)]

/-- C1 witness: fork `{A, C}`, one current path proposing A, one counter
path proposing C; the A extension is returned. -/
theorem graph_walker_choose_counter_check_witness :
    graph_walker_choose (fun _ => true) [⟨[0, 1], 0, 2⟩] [⟨[1], 0, 1⟩]
        [(0, 0), (1, 1)]
      = findNuc (FollowPath.cur ⟨[0, 1], 0, 2⟩)
          (restrictCol (fun _ => true) [(0, 0), (1, 1)]) :=
  (graph_walker_choose_counter_check (fun _ => true) ⟨[0, 1], 0, 2⟩ [] [⟨[1], 0, 1⟩]
    [(0, 0), (1, 1)] (by decide)).2 (by decide) (by decide)

/-! ### Pool bookkeeping lemmas -/

theorem resize_paths_fields (gw : GW) (l : Nat) :
    (resize_paths gw l).colour = gw.colour ∧
    (resize_paths gw l).node = gw.node ∧
    (resize_paths gw l).orient = gw.orient ∧
    (resize_paths gw l).currPaths = gw.currPaths ∧
    (resize_paths gw l).numCurr = gw.numCurr ∧
    (resize_paths gw l).counterPaths = gw.counterPaths :=
  ⟨rfl, rfl, rfl, rfl, rfl, rfl⟩

theorem resize_paths_balanced (gw : GW) (l : Nat) (hb : gw.balanced) :
    (resize_paths gw l).balanced := by
  obtain ⟨h1, h2, h3⟩ := hb
  unfold resize_paths GW.balanced
  by_cases hz : gw.numUnused = 0
  · rw [if_pos hz]
    exact ⟨h1, by simpa using by omega, by simpa using by omega⟩
  · rw [if_neg hz]
    exact ⟨h1, h2, by simpa using by omega⟩

theorem resize_paths_unused_pos (gw : GW) (l : Nat) (hb : gw.balanced)
    (hz : gw.numUnused = 0) : 0 < (resize_paths gw l).numUnused := by
  obtain ⟨h1, h2, h3⟩ := hb
  unfold resize_paths
  rw [if_pos hz]
  simpa using by omega

theorem resize_paths_unused_eq (gw : GW) (l : Nat) (hz : gw.numUnused ≠ 0) :
    (resize_paths gw l).numUnused = gw.numUnused := by
  unfold resize_paths
  rw [if_neg hz]
  simp

theorem pickOne_false_fields (gw : GW) (e : StoredPath) :
    (pickOne gw e false).currPaths
        = gw.currPaths ++ [⟨e.bases, 0, e.bases.length⟩] ∧
    (pickOne gw e false).numCurr = gw.numCurr + 1 ∧
    (pickOne gw e false).counterPaths = gw.counterPaths ∧
    (pickOne gw e false).colour = gw.colour ∧
    (pickOne gw e false).node = gw.node ∧
    (pickOne gw e false).orient = gw.orient := by
  unfold pickOne
  by_cases h : gw.maxPathLen < e.bases.length ∨ gw.numUnused = 0
  · rw [if_pos h]
    exact ⟨rfl, rfl, rfl, rfl, rfl, rfl⟩
  · rw [if_neg h]
    exact ⟨rfl, rfl, rfl, rfl, rfl, rfl⟩

theorem pickOne_true_fields (gw : GW) (e : StoredPath) :
    (pickOne gw e true).counterPaths
        = gw.counterPaths ++ [⟨e.bases, 0, e.bases.length⟩] ∧
    (pickOne gw e true).currPaths = gw.currPaths ∧
    (pickOne gw e true).numCurr = gw.numCurr ∧
    (pickOne gw e true).colour = gw.colour ∧
    (pickOne gw e true).node = gw.node ∧
    (pickOne gw e true).orient = gw.orient := by
  unfold pickOne
  by_cases h : gw.maxPathLen < e.bases.length ∨ gw.numUnused = 0
  · rw [if_pos h]
    exact ⟨rfl, rfl, rfl, rfl, rfl, rfl⟩
  · rw [if_neg h]
    exact ⟨rfl, rfl, rfl, rfl, rfl, rfl⟩

theorem pickOne_balanced (gw : GW) (e : StoredPath) (cf : Bool)
    (hb : gw.balanced) : (pickOne gw e cf).balanced := by
  unfold pickOne
  by_cases h : gw.maxPathLen < e.bases.length ∨ gw.numUnused = 0
  · rw [if_pos h]
    have hbal1 : (resize_paths gw e.bases.length).balanced :=
      resize_paths_balanced gw _ hb
    have hpos1 : 1 ≤ (resize_paths gw e.bases.length).numUnused := by
      by_cases hz : gw.numUnused = 0
      · exact resize_paths_unused_pos gw _ hb hz
      · rw [resize_paths_unused_eq gw _ hz]
        omega
    obtain ⟨h1, h2, h3⟩ := hbal1
    cases cf
    · exact ⟨by simp; omega, h2, by simp; omega⟩
    · exact ⟨by simp; omega, h2, by simp; omega⟩
  · rw [if_neg h]
    have hpos1 : 1 ≤ gw.numUnused := by
      push_neg at h
      omega
    obtain ⟨h1, h2, h3⟩ := hb
    cases cf
    · exact ⟨by simp; omega, h2, by simp; omega⟩
    · exact ⟨by simp; omega, h2, by simp; omega⟩

theorem pickup_paths_cons_pos (gw : GW) (e : StoredPath) (es : List StoredPath)
    (orient cf : Bool) (hc : (e.cols gw.colour && (e.orient == orient)) = true) :
    pickup_paths gw (e :: es) orient cf
      = ((pickup_paths (pickOne gw e cf) es orient cf).1,
         (pickup_paths (pickOne gw e cf) es orient cf).2 + 1) := by
  conv_lhs => unfold pickup_paths
  rw [if_pos hc]

theorem pickup_paths_cons_neg (gw : GW) (e : StoredPath) (es : List StoredPath)
    (orient cf : Bool) (hc : ¬ (e.cols gw.colour && (e.orient == orient)) = true) :
    pickup_paths gw (e :: es) orient cf = pickup_paths gw es orient cf := by
  conv_lhs => unfold pickup_paths
  rw [if_neg hc]

theorem pickedList_cons_pos (colour : Nat) (orient : Bool) (e : StoredPath)
    (es : List StoredPath) (hc : (e.cols colour && (e.orient == orient)) = true) :
    pickedList colour orient (e :: es)
      = ⟨e.bases, 0, e.bases.length⟩ :: pickedList colour orient es := by
  unfold pickedList
  rw [@List.filter_cons_of_pos _ (fun x => x.cols colour && (x.orient == orient))
      e es hc, List.map_cons]

theorem pickedList_cons_neg (colour : Nat) (orient : Bool) (e : StoredPath)
    (es : List StoredPath) (hc : ¬ (e.cols colour && (e.orient == orient)) = true) :
    pickedList colour orient (e :: es) = pickedList colour orient es := by
  unfold pickedList
  rw [@List.filter_cons_of_neg _ (fun x => x.cols colour && (x.orient == orient))
      e es hc]

theorem pickup_paths_false_spec (chain : List StoredPath) (gw : GW)
    (orient : Bool) :
    (pickup_paths gw chain orient false).1.currPaths
        = gw.currPaths ++ pickedList gw.colour orient chain ∧
    (pickup_paths gw chain orient false).1.numCurr
        = gw.numCurr + (pickedList gw.colour orient chain).length ∧
    (pickup_paths gw chain orient false).1.counterPaths = gw.counterPaths ∧
    (pickup_paths gw chain orient false).1.colour = gw.colour ∧
    (pickup_paths gw chain orient false).1.node = gw.node ∧
    (pickup_paths gw chain orient false).1.orient = gw.orient ∧
    (pickup_paths gw chain orient false).2
        = (pickedList gw.colour orient chain).length := by
  induction chain generalizing gw with
  | nil =>
    refine ⟨by simp [pickup_paths, pickedList], by simp [pickup_paths, pickedList],
      rfl, rfl, rfl, rfl, by simp [pickup_paths, pickedList]⟩
  | cons e es ih =>
    by_cases hc : (e.cols gw.colour && (e.orient == orient)) = true
    · rw [pickup_paths_cons_pos gw e es orient false hc,
          pickedList_cons_pos gw.colour orient e es hc]
      obtain ⟨f1, f2, f3, f4, f5, f6⟩ := pickOne_false_fields gw e
      obtain ⟨g1, g2, g3, g4, g5, g6, g7⟩ := ih (pickOne gw e false)
      rw [f4] at g1 g2 g7
      refine ⟨?_, ?_, ?_, ?_, ?_, ?_, ?_⟩
      · show (pickup_paths (pickOne gw e false) es orient false).1.currPaths = _
        rw [g1, f1, List.append_assoc, List.singleton_append]
      · show (pickup_paths (pickOne gw e false) es orient false).1.numCurr = _
        rw [g2, f2, List.length_cons]
        omega
      · show (pickup_paths (pickOne gw e false) es orient false).1.counterPaths = _
        rw [g3, f3]
      · show (pickup_paths (pickOne gw e false) es orient false).1.colour = _
        rw [g4, f4]
      · show (pickup_paths (pickOne gw e false) es orient false).1.node = _
        rw [g5, f5]
      · show (pickup_paths (pickOne gw e false) es orient false).1.orient = _
        rw [g6, f6]
      · show (pickup_paths (pickOne gw e false) es orient false).2 + 1 = _
        rw [g7, List.length_cons]
    · rw [pickup_paths_cons_neg gw e es orient false hc,
          pickedList_cons_neg gw.colour orient e es hc]
      exact ih gw

theorem pickup_paths_true_spec (chain : List StoredPath) (gw : GW)
    (orient : Bool) :
    (pickup_paths gw chain orient true).1.counterPaths
        = gw.counterPaths ++ pickedList gw.colour orient chain ∧
    (pickup_paths gw chain orient true).1.currPaths = gw.currPaths ∧
    (pickup_paths gw chain orient true).1.numCurr = gw.numCurr ∧
    (pickup_paths gw chain orient true).1.colour = gw.colour ∧
    (pickup_paths gw chain orient true).1.node = gw.node ∧
    (pickup_paths gw chain orient true).1.orient = gw.orient ∧
    (pickup_paths gw chain orient true).2
        = (pickedList gw.colour orient chain).length := by
  induction chain generalizing gw with
  | nil =>
    refine ⟨by simp [pickup_paths, pickedList], rfl, rfl, rfl, rfl, rfl,
      by simp [pickup_paths, pickedList]⟩
  | cons e es ih =>
    by_cases hc : (e.cols gw.colour && (e.orient == orient)) = true
    · rw [pickup_paths_cons_pos gw e es orient true hc,
          pickedList_cons_pos gw.colour orient e es hc]
      obtain ⟨f1, f2, f3, f4, f5, f6⟩ := pickOne_true_fields gw e
      obtain ⟨g1, g2, g3, g4, g5, g6, g7⟩ := ih (pickOne gw e true)
      rw [f4] at g1 g7
      refine ⟨?_, ?_, ?_, ?_, ?_, ?_, ?_⟩
      · show (pickup_paths (pickOne gw e true) es orient true).1.counterPaths = _
        rw [g1, f1, List.append_assoc, List.singleton_append]
      · show (pickup_paths (pickOne gw e true) es orient true).1.currPaths = _
        rw [g2, f2]
      · show (pickup_paths (pickOne gw e true) es orient true).1.numCurr = _
        rw [g3, f3]
      · show (pickup_paths (pickOne gw e true) es orient true).1.colour = _
        rw [g4, f4]
      · show (pickup_paths (pickOne gw e true) es orient true).1.node = _
        rw [g5, f5]
      · show (pickup_paths (pickOne gw e true) es orient true).1.orient = _
        rw [g6, f6]
      · show (pickup_paths (pickOne gw e true) es orient true).2 + 1 = _
        rw [g7, List.length_cons]
    · rw [pickup_paths_cons_neg gw e es orient true hc,
          pickedList_cons_neg gw.colour orient e es hc]
      exact ih gw

theorem pickup_paths_balanced (chain : List StoredPath) (gw : GW)
    (orient cf : Bool) (hb : gw.balanced) :
    (pickup_paths gw chain orient cf).1.balanced := by
  induction chain generalizing gw with
  | nil => exact hb
  | cons e es ih =>
    by_cases hc : (e.cols gw.colour && (e.orient == orient)) = true
    · rw [pickup_paths_cons_pos gw e es orient cf hc]
      exact ih (pickOne gw e cf) (pickOne_balanced gw e cf hb)
    · rw [pickup_paths_cons_neg gw e es orient cf hc]
      exact ih gw hb

theorem balanced_sub_numCurr (gw : GW) (k : Nat) (hb : gw.balanced) :
    GW.balanced { gw with numCurr := gw.numCurr - k } := by
  obtain ⟨h1, h2, h3⟩ := hb
  refine ⟨?_, h2, ?_⟩
  · show gw.numCurr - k ≤ gw.currPaths.length
    omega
  · show gw.numCurr - k + (gw.currPaths.length - (gw.numCurr - k))
        + gw.counterPaths.length + gw.numUnused = gw.maxNumPaths
    omega

theorem fork_filter_balanced (b : Fin 4) (gw : GW) (hb : gw.balanced) :
    (fork_filter b gw).balanced := by
  obtain ⟨h1, h2, h3⟩ := hb
  have hkc := List.length_filter_le (keepP b) gw.currPaths
  have hkk := List.length_filter_le (keepP b) gw.counterPaths
  unfold fork_filter GW.balanced
  refine ⟨le_refl _, h2, ?_⟩
  simp only [List.length_map]
  omega

theorem graph_walker_init_balanced (gw : GW) (colour node : Nat) (orient : Bool)
    (chain : List StoredPath) (hmax : 0 < gw.maxNumPaths) :
    (graph_walker_init gw colour node orient chain).balanced := by
  have hg0 : GW.balanced
      { gw with colour := colour, node := node, orient := orient,
                currPaths := [], numCurr := 0, counterPaths := [],
                numUnused := gw.maxNumPaths } := ⟨Nat.le_refl 0, hmax, by simp⟩
  exact balanced_sub_numCurr _ _ (pickup_paths_balanced chain _ orient false hg0)

theorem graph_traverse_force_jump_balanced (gw : GW) (node : Nat) (lastNuc : Fin 4)
    (newOrient : Bool) (fork : Bool) (chain : List StoredPath) (hb : gw.balanced) :
    (graph_traverse_force_jump gw node lastNuc newOrient fork chain).balanced := by
  have hg1 : (if fork then fork_filter lastNuc gw else gw).balanced := by
    split
    · exact fork_filter_balanced lastNuc gw hb
    · exact hb
  have hg2 : GW.balanced { (if fork then fork_filter lastNuc gw else gw) with
      node := node, orient := newOrient,
      numCurr := (if fork then fork_filter lastNuc gw else gw).currPaths.length } := by
    obtain ⟨h1, h2, h3⟩ := hg1
    refine ⟨le_refl _, h2, ?_⟩
    show (if fork then fork_filter lastNuc gw else gw).currPaths.length
        + ((if fork then fork_filter lastNuc gw else gw).currPaths.length
          - (if fork then fork_filter lastNuc gw else gw).currPaths.length)
        + (if fork then fork_filter lastNuc gw else gw).counterPaths.length
        + (if fork then fork_filter lastNuc gw else gw).numUnused
        = (if fork then fork_filter lastNuc gw else gw).maxNumPaths
    omega
  cases fork
  · exact balanced_sub_numCurr _ _ (pickup_paths_balanced chain _ newOrient false hg2)
  · exact balanced_sub_numCurr _ _ (pickup_paths_balanced chain _ newOrient false hg2)

theorem add_counter_one_balanced (gw : GW) (pv : List StoredPath × Bool × Nat)
    (hb : gw.balanced) : (add_counter_one gw pv).balanced := by
  have hr := pickup_paths_balanced pv.1 gw pv.2.1 true hb
  obtain ⟨s1, s2, s3, s4, s5, s6, s7⟩ := pickup_paths_true_spec pv.1 gw pv.2.1
  have hdrop : (pickup_paths gw pv.1 pv.2.1 true).1.counterPaths.drop
      gw.counterPaths.length = pickedList gw.colour pv.2.1 pv.1 := by
    rw [s1]
    exact List.drop_left _ _
  have htake : (pickup_paths gw pv.1 pv.2.1 true).1.counterPaths.take
      gw.counterPaths.length = gw.counterPaths := by
    rw [s1]
    exact List.take_left _ _
  simp only [add_counter_one]
  by_cases hd : 1 < pv.2.2
  · rw [if_pos hd, htake, hdrop]
    obtain ⟨h1, h2, h3⟩ := hr
    have hlen : (pickup_paths gw pv.1 pv.2.1 true).1.counterPaths.length
        = gw.counterPaths.length + (pickedList gw.colour pv.2.1 pv.1).length := by
      rw [s1, List.length_append]
    have hkle := List.length_filter_le (fun p => 1 < p.len)
      (pickedList gw.colour pv.2.1 pv.1)
    refine ⟨h1, h2, ?_⟩
    show (pickup_paths gw pv.1 pv.2.1 true).1.numCurr
        + ((pickup_paths gw pv.1 pv.2.1 true).1.currPaths.length
          - (pickup_paths gw pv.1 pv.2.1 true).1.numCurr)
        + (gw.counterPaths
            ++ ((pickedList gw.colour pv.2.1 pv.1).filter (fun p => 1 < p.len)).map
              bump).length
        + ((pickup_paths gw pv.1 pv.2.1 true).1.numUnused
          + ((pickedList gw.colour pv.2.1 pv.1).length
            - (((pickedList gw.colour pv.2.1 pv.1).filter (fun p => 1 < p.len)).map
                bump).length))
        = (pickup_paths gw pv.1 pv.2.1 true).1.maxNumPaths
    simp only [List.length_append, List.length_map]
    omega
  · rw [if_neg hd]
    exact hr

theorem graph_walker_add_counter_paths_balanced
    (prevs : List (List StoredPath × Bool × Nat)) (gw : GW) (hb : gw.balanced) :
    (graph_walker_add_counter_paths gw prevs).balanced := by
  induction prevs generalizing gw with
  | nil => exact hb
  | cons pv pvs ih => exact ih (add_counter_one gw pv) (add_counter_one_balanced gw pv hb)

theorem graph_walker_finish_balanced (gw : GW) (hb : gw.balanced) :
    (graph_walker_finish gw).balanced := by
  obtain ⟨h1, h2, h3⟩ := hb
  refine ⟨Nat.le_refl 0, h2, ?_⟩
  show 0 + (([] : List FollowPath).length - 0) + ([] : List FollowPath).length
      + (gw.numUnused + gw.currPaths.length + gw.counterPaths.length)
      = gw.maxNumPaths
  simp only [List.length_nil]
  omega

theorem pickup_sub_spec (g2 : GW) (chain : List StoredPath) (orient : Bool) :
    ({ (pickup_paths g2 chain orient false).1 with
       numCurr := (pickup_paths g2 chain orient false).1.numCurr
         - (pickup_paths g2 chain orient false).2 } : GW).currPaths
      = g2.currPaths ++ pickedList g2.colour orient chain ∧
    ({ (pickup_paths g2 chain orient false).1 with
       numCurr := (pickup_paths g2 chain orient false).1.numCurr
         - (pickup_paths g2 chain orient false).2 } : GW).numCurr = g2.numCurr ∧
    ({ (pickup_paths g2 chain orient false).1 with
       numCurr := (pickup_paths g2 chain orient false).1.numCurr
         - (pickup_paths g2 chain orient false).2 } : GW).counterPaths
      = g2.counterPaths ∧
    ({ (pickup_paths g2 chain orient false).1 with
       numCurr := (pickup_paths g2 chain orient false).1.numCurr
         - (pickup_paths g2 chain orient false).2 } : GW).node = g2.node ∧
    ({ (pickup_paths g2 chain orient false).1 with
       numCurr := (pickup_paths g2 chain orient false).1.numCurr
         - (pickup_paths g2 chain orient false).2 } : GW).orient = g2.orient := by
  obtain ⟨s1, s2, s3, s4, s5, s6, s7⟩ := pickup_paths_false_spec chain g2 orient
  refine ⟨s1, ?_, s3, s5, s6⟩
  show (pickup_paths g2 chain orient false).1.numCurr
      - (pickup_paths g2 chain orient false).2 = g2.numCurr
  omega

/-- C5: `graph_traverse_force_jump` with `fork = true` keeps exactly the
current and new paths whose current base is the last nucleotide of the new
bkmer and whose `pos + 1 < len`, advancing their `pos`; the same filter is
applied to the counter paths; the walker moves to the new node and
orientation; the filtered paths all become current and the paths picked up
at the new node with the new orientation form the new region; the dropped
paths are returned to the unused pool. -/
theorem graph_traverse_force_jump_fork_spec (gw : GW) (node : Nat)
    (lastNuc : Fin 4) (newOrient : Bool) (chain : List StoredPath) :
    (graph_traverse_force_jump gw node lastNuc newOrient true chain).currPaths
      = (gw.currPaths.filter (keepP lastNuc)).map bump
        ++ pickedList gw.colour newOrient chain ∧
    (graph_traverse_force_jump gw node lastNuc newOrient true chain).numCurr
      = ((gw.currPaths.filter (keepP lastNuc)).map bump).length ∧
    (graph_traverse_force_jump gw node lastNuc newOrient true chain).counterPaths
      = (gw.counterPaths.filter (keepP lastNuc)).map bump ∧
    (graph_traverse_force_jump gw node lastNuc newOrient true chain).node = node ∧
    (graph_traverse_force_jump gw node lastNuc newOrient true chain).orient
      = newOrient ∧
    (fork_filter lastNuc gw).numUnused
      = gw.numUnused
        + (gw.currPaths.length - ((gw.currPaths.filter (keepP lastNuc)).map bump).length)
        + (gw.counterPaths.length
          - ((gw.counterPaths.filter (keepP lastNuc)).map bump).length) := by
  obtain ⟨p1, p2, p3, p4, p5⟩ := pickup_sub_spec
    { fork_filter lastNuc gw with node := node, orient := newOrient,
                                  numCurr := (fork_filter lastNuc gw).currPaths.length }
    chain newOrient
  exact ⟨p1, p2, p3, p4, p5, rfl⟩

/-- C4 counterexample: one predecessor with out-degree 1 and one stored
path of length 1.  The path is picked up into `counter_paths` anyway, it
keeps `pos = 0` (not 1), and the `len == 1` record is not returned to the
unused pool — all three clauses of the claim fail. -/
theorem graph_walker_add_counter_paths_cex :
    (graph_walker_add_counter_paths graph_walker_alloc
        [([⟨fun _ => true, true, [0]⟩], true, 1)]).counterPaths
      = [⟨[0], 0, 1⟩] := by
  rfl

/-- C4 (amended): `add_counter_paths` picks up paths from every immediate
predecessor; only when the predecessor's out-degree exceeds 1 are the
picked-up paths advanced to `pos = 1` with the `len == 1` ones returned to
the unused pool; for a predecessor of out-degree at most 1 the picked-up
paths are kept with `pos = 0`, including those with `len == 1`. -/
theorem graph_walker_add_counter_paths_spec (gw : GW) (chain : List StoredPath)
    (orient : Bool) (outdeg : Nat) :
    (1 < outdeg →
      (graph_walker_add_counter_paths gw [(chain, orient, outdeg)]).counterPaths
        = gw.counterPaths
          ++ ((chain.filter (fun e => e.cols gw.colour && (e.orient == orient))).filter
                (fun e => 1 < e.bases.length)).map
              (fun e => ⟨e.bases, 1, e.bases.length⟩)) ∧
    (outdeg ≤ 1 →
      (graph_walker_add_counter_paths gw [(chain, orient, outdeg)]).counterPaths
        = gw.counterPaths
          ++ (chain.filter (fun e => e.cols gw.colour && (e.orient == orient))).map
              (fun e => ⟨e.bases, 0, e.bases.length⟩)) := by
  obtain ⟨s1, s2, s3, s4, s5, s6, s7⟩ := pickup_paths_true_spec chain gw orient
  have hdrop : (pickup_paths gw chain orient true).1.counterPaths.drop
      gw.counterPaths.length = pickedList gw.colour orient chain := by
    rw [s1]
    exact List.drop_left _ _
  have htake : (pickup_paths gw chain orient true).1.counterPaths.take
      gw.counterPaths.length = gw.counterPaths := by
    rw [s1]
    exact List.take_left _ _
  constructor
  · intro hd
    show (add_counter_one gw (chain, orient, outdeg)).counterPaths = _
    simp only [add_counter_one]
    rw [if_pos hd, htake, hdrop]
    unfold pickedList
    rw [List.filter_map, List.map_map]
    rfl
  · intro hd
    show (add_counter_one gw (chain, orient, outdeg)).counterPaths = _
    simp only [add_counter_one]
    rw [if_neg (by omega)]
    exact s1

/-- C4 witness: a branching predecessor (out-degree 2) with a length-1 and
a length-2 stored path: only the length-2 path is kept, at `pos = 1`. -/
theorem graph_walker_add_counter_paths_spec_witness :
    (graph_walker_add_counter_paths graph_walker_alloc
        [([⟨fun _ => true, true, [0]⟩, ⟨fun _ => true, true, [1, 2]⟩], true, 2)]).counterPaths
      = ([] : List FollowPath)
        ++ ((([⟨fun _ => true, true, [0]⟩, ⟨fun _ => true, true, [1, 2]⟩]
              : List StoredPath).filter
                (fun e => e.cols 0 && (e.orient == true))).filter
              (fun e => 1 < e.bases.length)).map
            (fun e => ⟨e.bases, 1, e.bases.length⟩) :=
  (graph_walker_add_counter_paths_spec graph_walker_alloc
    [⟨fun _ => true, true, [0]⟩, ⟨fun _ => true, true, [1, 2]⟩] true 2).1 (by omega)

/-- C10: the path pool is conserved: the invariant
`num_curr + num_new + num_counter + num_unused = max_num_paths` holds after
`graph_walker_alloc` and is preserved by `graph_walker_init`,
`pickup_paths`, `graph_traverse_force_jump`,
`graph_walker_add_counter_paths`, `resize_paths` and
`graph_walker_finish`; moreover `graph_walker_finish` empties the current,
new and counter partitions, returning every record to the unused pool. -/
theorem graph_walker_pool_conserved (gw : GW) (colour node : Nat)
    (orient newOrient cf : Bool) (lastNuc : Fin 4) (fork : Bool)
    (chain : List StoredPath) (prevs : List (List StoredPath × Bool × Nat))
    (plen : Nat) (hb : gw.balanced) :
    graph_walker_alloc.balanced ∧
    (graph_walker_init gw colour node orient chain).balanced ∧
    ((pickup_paths gw chain orient cf).1).balanced ∧
    (graph_traverse_force_jump gw node lastNuc newOrient fork chain).balanced ∧
    (graph_walker_add_counter_paths gw prevs).balanced ∧
    (resize_paths gw plen).balanced ∧
    (graph_walker_finish gw).balanced ∧
    (graph_walker_finish gw).numCurr = 0 ∧
    (graph_walker_finish gw).currPaths = [] ∧
    (graph_walker_finish gw).counterPaths = [] ∧
    (graph_walker_finish gw).numUnused
      = gw.numUnused + gw.currPaths.length + gw.counterPaths.length :=
  ⟨by decide, graph_walker_init_balanced gw colour node orient chain hb.2.1,
   pickup_paths_balanced chain gw orient cf hb,
   graph_traverse_force_jump_balanced gw node lastNuc newOrient fork chain hb,
   graph_walker_add_counter_paths_balanced prevs gw hb,
   resize_paths_balanced gw plen hb,
   graph_walker_finish_balanced gw hb, rfl, rfl, rfl, rfl⟩

/-- C10 witness: the invariant after initialising a freshly allocated
walker at a node with one stored path. -/
theorem graph_walker_pool_conserved_witness :
    (graph_walker_init graph_walker_alloc 0 5 true
        [⟨fun _ => true, true, [0, 1]⟩]).balanced :=
  (graph_walker_pool_conserved graph_walker_alloc 0 5 true true false 1 false
    [⟨fun _ => true, true, [0, 1]⟩] [] 3 (by decide)).2.1

/-! ### The `clean` command's argument validation (src/commands/ctx_clean.c)

C strings are modelled as `List Char`.  `cmd_print_usage` (cmd.c, absent
from src) reports usage text and exits non-zero; it is modelled as an
`Except.error` carrying the usage message, returned before the model ever
reaches the stage that opens graph files (`Except.ok` carrying the plan of
files to open and actions to run). -/

/-- Modelled from the spec: `parse_digits` is the value of a digit string. -/
def parse_digits (s : List Char) : Nat :=
  s.foldl (fun a c => a * 10 + (c.toNat - 48)) 0

/-- Modelled from the spec: `parse_entire_uint` (util.c, absent from src)
parses a whole string as an unsigned integer: at least one digit and
nothing else. -/
def parse_entire_uint (s : List Char) : Option Nat :=
  if s ≠ [] ∧ s.all Char.isDigit then some (parse_digits s) else none

/-- Modelled from the spec: `parse_entire_size` (util.c, absent from src),
same as `parse_entire_uint` for this model's purposes. -/
def parse_entire_size (s : List Char) : Option Nat := parse_entire_uint s

/-- Modelled from the spec: `parse_entire_double` (util.c, absent from
src) parses a decimal number `digits[.digits]`; only its success and its
comparison with 1 matter to the `clean` command. -/
def parse_entire_double (s : List Char) : Option ℚ :=
  let ip := s.takeWhile Char.isDigit
  if ip = [] then none
  else
    match s.dropWhile Char.isDigit with
    | [] => some ((parse_digits ip : ℚ))
    | '.' :: frac =>
      if frac ≠ [] ∧ frac.all Char.isDigit then
        some ((parse_digits ip : ℚ) + (parse_digits frac : ℚ) / (10 : ℚ) ^ frac.length)
      else none
    | _ => none

/-- The option state accumulated by `ctx_clean`'s argument loop. -/
structure CleanOpts where
  tip_cleaning : Bool
  supernode_cleaning : Bool
  max_tip_len : Nat
  threshold : Nat
  seq_depth : ℚ
  dump_covgs : Option (List Char)
  len_before : Option (List Char)
  len_after : Option (List Char)
deriving DecidableEq

/-- The initial option state of `ctx_clean` (threshold 0, seq_depth -1). -/
def cleanOptsInit : CleanOpts :=
  { tip_cleaning := false, supernode_cleaning := false, max_tip_len := 0,
    threshold := 0, seq_depth := -1, dump_covgs := none,
    len_before := none, len_after := none }

/-- The `for(argi...)` option loop of `ctx_clean`: consume leading `-`
arguments, accumulating options; a violated flag precondition is a usage
error; the remaining arguments are the graph files. -/
def clean_args_loop : List (List Char) → CleanOpts →
    Except (List Char) (CleanOpts × List (List Char))
  | [], opts => Except.ok (opts, [])
  | a :: rest, opts =>
    if a.headD ' ' ≠ '-' then Except.ok (opts, a :: rest)
    else if a = ("--tips").toList then
      match rest with
      | [] => Except.error (("--tips <L> needs an integer argument > 1").toList)
      | v :: rest2 =>
        match parse_entire_size v with
        | none => Except.error (("--tips <L> needs an integer argument > 1").toList)
        | some L =>
          if L ≤ 1 then
            Except.error (("--tips <L> needs an integer argument > 1").toList)
          else clean_args_loop rest2 { opts with tip_cleaning := true, max_tip_len := L }
    else if a = ("--supernodes").toList then
      clean_args_loop rest { opts with supernode_cleaning := true }
    else if a = ("--covgs").toList then
      match rest with
      | [] => Except.error (("--covgs <out.csv> needs an argument").toList)
      | v :: rest2 => clean_args_loop rest2 { opts with dump_covgs := some v }
    else if a = ("--threshold").toList then
      match rest with
      | [] => Except.error (("--threshold <T> needs an integer argument > 1").toList)
      | v :: rest2 =>
        match parse_entire_uint v with
        | none => Except.error (("--threshold <T> needs an integer argument > 1").toList)
        | some T =>
          if T ≤ 1 then
            Except.error (("--threshold <T> needs an integer argument > 1").toList)
          else clean_args_loop rest2 { opts with threshold := T }
    else if a = ("--kdepth").toList then
      match rest with
      | [] => Except.error (("--kdepth <C> needs a positive decimal number > 1").toList)
      | v :: rest2 =>
        match parse_entire_double v with
        | none => Except.error (("--kdepth <C> needs a positive decimal number > 1").toList)
        | some d =>
          if d ≤ 1 then
            Except.error (("--kdepth <C> needs a positive decimal number > 1").toList)
          else clean_args_loop rest2 { opts with seq_depth := d }
    else if a = ("--len-before").toList then
      match rest with
      | [] => Except.error (("--len-before <out.csv> needs a path").toList)
      | v :: rest2 => clean_args_loop rest2 { opts with len_before := some v }
    else if a = ("--len-after").toList then
      match rest with
      | [] => Except.error (("--len-after <out.csv> needs a path").toList)
      | v :: rest2 => clean_args_loop rest2 { opts with len_after := some v }
    else Except.error (("Unknown argument").toList)

/-- What `ctx_clean` is about to do once argument validation has passed:
the graph files it will open and the cleaning actions it will run. -/
structure CleanPlan where
  graph_files : List (List Char)
  tip_cleaning : Bool
  supernode_cleaning : Bool
  max_tip_len : Nat
  threshold : Nat
deriving DecidableEq

/-- `ctx_clean` up to the point where graph files are opened: the argument
loop, then the validations of lines 97-134 of ctx_clean.c, in order.
`outPath` is `args->output_file` when set; `fileExists` models
`futil_file_exists`.  Every error precedes any graph-file work. -/
def ctx_clean (outPath : Option (List Char)) (fileExists : List Char → Bool)
    (argv : List (List Char)) : Except (List Char) CleanPlan :=
  match clean_args_loop argv cleanOptsInit with
  | Except.error e => Except.error e
  | Except.ok (opts, files) =>
    if files = [] then Except.error (("Please give input graph files").toList)
    else
      let dflt := !opts.tip_cleaning && !opts.supernode_cleaning && outPath.isSome
      let tc := opts.tip_cleaning || dflt
      let sc := opts.supernode_cleaning || dflt
      if (tc || sc) ∧ outPath = none then
        Except.error (("Please specify --out <out.ctx> for cleaned graph").toList)
      else if ¬ sc ∧ 0 < opts.threshold then
        Except.error (("--threshold <T> not needed if not cleaning with --supernodes").toList)
      else if ¬ sc ∧ 0 < opts.seq_depth then
        Except.error (("--kdepth <C> not needed if not cleaning with --supernodes").toList)
      else if sc ∧ opts.threshold ≠ 0 ∧ 0 < opts.seq_depth then
        Except.error (("supernode cleaning requires only one of --threshold <T>, --depth <D>").toList)
      else if ¬ (tc || sc) ∧ opts.len_after ≠ none then
        Except.error (("You use --len-after <out.csv> without any cleaning").toList)
      else if outPath.elim false (fun p => !(p == ("-").toList) && fileExists p) then
        Except.error (("Output file already exists").toList)
      else
        Except.ok ⟨files, tc, sc, opts.max_tip_len, opts.threshold⟩

/-- C9: for the clean command, `--threshold` with a value that is not an
integer greater than 1 (for example `--threshold 0`) is an argument error:
the usage message is reported and the command stops (error result) before
any graph file is opened or any cleaning plan is produced. -/
theorem ctx_clean_threshold_arg_error (outPath : Option (List Char))
    (fileExists : List Char → Bool) (v : List Char) (rest : List (List Char))
    (hv : parse_entire_uint v = none ∨ ∃ t, parse_entire_uint v = some t ∧ t ≤ 1) :
    ctx_clean outPath fileExists (("--threshold").toList :: v :: rest)
      = Except.error (("--threshold <T> needs an integer argument > 1").toList) := by
  have hloop : clean_args_loop (("--threshold").toList :: v :: rest) cleanOptsInit
      = Except.error (("--threshold <T> needs an integer argument > 1").toList) := by
    unfold clean_args_loop
    rw [if_neg (by decide), if_neg (by decide), if_neg (by decide),
        if_neg (by decide), if_pos rfl]
    rcases hv with hn | ⟨t, ht, hle⟩
    · simp only [hn]
    · simp only [ht]
      rw [if_pos hle]
  unfold ctx_clean
  rw [hloop]

/-- C9 witness: `--threshold 0` on a single input file. -/
theorem ctx_clean_threshold_arg_error_witness :
    ctx_clean none (fun _ => false)
        [("--threshold").toList, ("0").toList, ("in.ctx").toList]
      = Except.error (("--threshold <T> needs an integer argument > 1").toList) :=
  ctx_clean_threshold_arg_error none (fun _ => false) (("0").toList)
    [("in.ctx").toList] (Or.inr ⟨0, by decide, by decide⟩)
